import Mathlib

/-
  Verification development for the stapiret repository.

  Embedded source files:
  - src/create_master_data.py : combine_kubernetes_data (the Merger)
  - src/stapiret.py : make_request (Transport retry loop),
    get_paginated_data (Paginator), get_namespaces / get_nodes loop /
    main configuration check (Collector and entry point).

  Python dicts (which preserve insertion order) are modelled as association
  lists over String keys, with new keys appended at the end; the nested
  defaultdict get-or-create of create_master_data.py is modelled by `upsert`.
-/

/-! ## Association-list infrastructure (Python dict / defaultdict model) -/

/-- Lookup in an insertion-ordered association list (Python `d[k]` read). -/
def alookup (k : String) : List (String × α) → Option α
  | [] => none
  | kv :: rest => if kv.1 = k then some kv.2 else alookup k rest

/-- Python defaultdict access-and-mutate: `d[k] = f (d.get (k, default))`.
A missing key is appended at the end with value `f dflt` (insertion order),
an existing key is updated in place by `f`. -/
def upsert (k : String) (dflt : α) (f : α → α) : List (String × α) → List (String × α)
  | [] => [(k, f dflt)]
  | kv :: rest => if kv.1 = k then (kv.1, f kv.2) :: rest else kv :: upsert k dflt f rest

/-- Sum of a numeric measure over all values of an association list. -/
def sumVals (h : α → Nat) : List (String × α) → Nat
  | [] => 0
  | kv :: rest => h kv.2 + sumVals h rest

/-! ## Data model (the JSON records consumed by combine_kubernetes_data) -/

/-- Record from clusters.json: fields read at create_master_data.py lines 29-35. -/
structure ClusterRec where
  id : String
  name : String
  type : String
  labels : List (String × String)
deriving DecidableEq

/-- One node from nodes.json, fields read at lines 40-45. -/
structure NodeRec where
  id : String
  name : String
  labels : List (String × String)
  taints : List String
deriving DecidableEq

/-- The metadata object of a namespaces.json record (lines 49-56). -/
structure NsMetadata where
  id : String
  clusterId : String
  name : String
  labels : List (String × String)
  annotations : List (String × String)
deriving DecidableEq

/-- Record from namespaces.json. -/
structure NamespaceRec where
  metadata : NsMetadata
deriving DecidableEq

/-- Record from deployments.json (lines 59-66).  `ns` models the source
key named namespace, which is a Lean keyword. -/
structure DeploymentRec where
  clusterId : String
  ns : String
  id : String
  name : String
  created : String
deriving DecidableEq

/-- The instanceId object inside a pod liveInstances entry (lines 83-88). -/
structure InstanceId where
  node : String
  id : String
  containerRuntime : String
deriving DecidableEq

/-- One liveInstances entry of a pods.json record. -/
structure LiveInstance where
  containerName : String
  instanceId : InstanceId
deriving DecidableEq

/-- Record from pods.json (lines 69-79).  `deploymentId` is
`pod.get ('deploymentId')`: `none` models an absent key. -/
structure PodRec where
  clusterId : String
  ns : String
  deploymentId : Option String
  id : String
  name : String
  liveInstances : List LiveInstance
deriving DecidableEq

/-! ## Tree entries of the merged master_data structure -/

/-- One entry of a pod containers list (lines 85-89). -/
structure ContainerInfo where
  name : String
  id : String
  runtime : String
deriving DecidableEq

/-- The pod_info dict built at lines 74-89. -/
structure PodInfo where
  id : String
  name : String
  node : Option String
  containers : List ContainerInfo
deriving DecidableEq

/-- A deployments entry of the tree; the defaultdict default at line 25 is
info = empty, pods = [].  Empty info is modelled as `none`. -/
structure DepEntry where
  info : Option (String × String)
  pods : List PodInfo
deriving DecidableEq

/-- A namespaces entry of the tree.  The id, labels, annotations keys are
only ever set together by the update at lines 52-56, so their joint
presence is one optional `meta` field; the standalone_pods key is created
lazily at lines 95-97 and an absent key is indistinguishable from an empty
list in every read of the source, so it is a plain list. -/
structure NsEntry where
  meta : Option NsMetadata
  deployments : List (String × DepEntry)
  standalone_pods : List PodInfo
deriving DecidableEq

/-- A top-level cluster entry of master_data (default at lines 22-26). -/
structure ClusterEntry where
  info : Option ClusterRec
  nodes : List NodeRec
  namespaces : List (String × NsEntry)
deriving DecidableEq

/-- The merged tree: clusterId keyed. -/
abbrev MasterData := List (String × ClusterEntry)

def emptyDepEntry : DepEntry := { info := none, pods := [] }

def emptyNsEntry : NsEntry := { meta := none, deployments := [], standalone_pods := [] }

def emptyClusterEntry : ClusterEntry := { info := none, nodes := [], namespaces := [] }

/-! ## The Merger: combine_kubernetes_data, phase by phase -/

/-- Python truthiness of `deployment_id` at line 91: an absent key (None)
and an empty string are both falsy. -/
def truthyStr : Option String → Bool
  | none => false
  | some s => s != ""

/-- Phase 1 body (lines 29-35): overwrite the cluster entry info. -/
def processCluster (md : MasterData) (c : ClusterRec) : MasterData :=
  upsert c.id emptyClusterEntry (fun ce => { ce with info := some c }) md

def processClusters (md : MasterData) (cs : List ClusterRec) : MasterData :=
  cs.foldl processCluster md

/-- Phase 2 body (lines 38-45): append one node to a cluster node list. -/
def processNode (md : MasterData) (cid : String) (n : NodeRec) : MasterData :=
  upsert cid emptyClusterEntry (fun ce => { ce with nodes := ce.nodes ++ [n] }) md

/-- Phase 2: nodes.json is a dict clusterId to a node list; insertion order
of the dict is modelled by the pair list. -/
def processNodes (md : MasterData) (nodesData : List (String × List NodeRec)) : MasterData :=
  nodesData.foldl (fun m kv => kv.2.foldl (fun m2 n => processNode m2 kv.1 n) m) md

/-- Phase 3 body (lines 48-56): update the namespace entry metadata. -/
def processNamespace (md : MasterData) (r : NamespaceRec) : MasterData :=
  upsert r.metadata.clusterId emptyClusterEntry (fun ce =>
    { ce with namespaces := upsert r.metadata.name emptyNsEntry (fun ne =>
        { ne with meta := some r.metadata }) ce.namespaces }) md

def processNamespaces (md : MasterData) (rs : List NamespaceRec) : MasterData :=
  rs.foldl processNamespace md

/-- Phase 4 body (lines 59-66): set the info of the deployment entry. -/
def processDeployment (md : MasterData) (d : DeploymentRec) : MasterData :=
  upsert d.clusterId emptyClusterEntry (fun ce =>
    { ce with namespaces := upsert d.ns emptyNsEntry (fun ne =>
        { ne with deployments := upsert d.id emptyDepEntry (fun de =>
            { de with info := some (d.name, d.created) }) ne.deployments }) ce.namespaces }) md

def processDeployments (md : MasterData) (ds : List DeploymentRec) : MasterData :=
  ds.foldl processDeployment md

/-- Loop body of lines 82-89: set node to this instance node and append one
containers entry. -/
def podInfoStep (info : PodInfo) (inst : LiveInstance) : PodInfo :=
  { info with
    node := some inst.instanceId.node,
    containers := info.containers ++
      [{ name := inst.containerName, id := inst.instanceId.id,
         runtime := inst.instanceId.containerRuntime }] }

/-- The pod_info construction of lines 74-89. -/
def mkPodInfo (p : PodRec) : PodInfo :=
  p.liveInstances.foldl podInfoStep
    { id := p.id, name := p.name, node := none, containers := [] }

/-- Phase 5 body (lines 69-97): append the pod under its deployment when
deployment_id is truthy, else to the namespace standalone_pods list. -/
def processPod (md : MasterData) (p : PodRec) : MasterData :=
  if truthyStr p.deploymentId then
    upsert p.clusterId emptyClusterEntry (fun ce =>
      { ce with namespaces := upsert p.ns emptyNsEntry (fun ne =>
          { ne with deployments := upsert (p.deploymentId.getD "") emptyDepEntry (fun de =>
              { de with pods := de.pods ++ [mkPodInfo p] }) ne.deployments }) ce.namespaces }) md
  else
    upsert p.clusterId emptyClusterEntry (fun ce =>
      { ce with namespaces := upsert p.ns emptyNsEntry (fun ne =>
          { ne with standalone_pods := ne.standalone_pods ++ [mkPodInfo p] }) ce.namespaces }) md

def processPods (md : MasterData) (ps : List PodRec) : MasterData :=
  ps.foldl processPod md

/-- combine_kubernetes_data (lines 13-99), with the load_json boundary as
arguments: each argument is the collection extracted from the
corresponding JSON file (a missing file yields the empty collection). -/
def combine_kubernetes_data (clusters : List ClusterRec)
    (nodesData : List (String × List NodeRec)) (namespaces : List NamespaceRec)
    (deployments : List DeploymentRec) (pods : List PodRec) : MasterData :=
  processPods
    (processDeployments
      (processNamespaces
        (processNodes (processClusters [] clusters) nodesData)
        namespaces)
      deployments)
    pods

/-! ## Tree accessors (reading the merged tree, with defaultdict defaults) -/

/-- Cluster entry at a key, defaulting to the empty entry when absent. -/
def clusterEntryD (md : MasterData) (c : String) : ClusterEntry :=
  (alookup c md).getD emptyClusterEntry

/-- Namespace entry at a (cluster, name) key, defaulting when absent. -/
def nsEntryD (md : MasterData) (c n : String) : NsEntry :=
  (alookup n (clusterEntryD md c).namespaces).getD emptyNsEntry

/-- Deployment entry at a (cluster, namespace, deploymentId) key. -/
def depEntryD (md : MasterData) (c n i : String) : DepEntry :=
  (alookup i (nsEntryD md c n).deployments).getD emptyDepEntry

/-- Whether a cluster key is present in the tree. -/
def hasCluster (md : MasterData) (c : String) : Bool :=
  (alookup c md).isSome

/-- Whether a namespace key is present under a cluster. -/
def hasNs (md : MasterData) (c n : String) : Bool :=
  (alookup n (clusterEntryD md c).namespaces).isSome

/-- Whether a deployment key is present under a (cluster, namespace). -/
def hasDep (md : MasterData) (c n i : String) : Bool :=
  (alookup i (nsEntryD md c n).deployments).isSome

/-! ## Pod-count and pod-occurrence aggregates over the tree -/

/-- Pods held by one namespace entry: all deployment pod lists plus the
standalone list (mirrors the statistics sum of lines 120-125). -/
def nsPodCount (ne : NsEntry) : Nat :=
  ne.standalone_pods.length + sumVals (fun de => de.pods.length) ne.deployments

/-- Total number of pods in the merged tree. -/
def totalPods (md : MasterData) : Nat :=
  sumVals (fun ce => sumVals nsPodCount ce.namespaces) md

/-- Number of occurrences of a pod entry in a list. -/
def occ (x : PodInfo) : List PodInfo → Nat
  | [] => 0
  | y :: r => (if y = x then 1 else 0) + occ x r

/-- Occurrences of a pod entry across all deployment pod lists of the tree. -/
def occDep (x : PodInfo) (md : MasterData) : Nat :=
  sumVals (fun ce => sumVals (fun ne => sumVals (fun de => occ x de.pods) ne.deployments) ce.namespaces) md

/-- Occurrences of a pod entry across all standalone_pods lists of the tree. -/
def occStandalone (x : PodInfo) (md : MasterData) : Nat :=
  sumVals (fun ce => sumVals (fun ne => occ x ne.standalone_pods) ce.namespaces) md

/-- Number of input pod records satisfying a predicate. -/
def countPodsP (f : PodRec → Bool) : List PodRec → Nat
  | [] => 0
  | p :: r => (if f p then 1 else 0) + countPodsP f r

/-! ## Basic lemmas on the association-list operations -/

theorem alookup_upsert_self (k : String) (dflt : α) (f : α → α) :
    ∀ l : List (String × α), alookup k (upsert k dflt f l) = some (f ((alookup k l).getD dflt)) := by
  intro l
  induction l with
  | nil => simp [alookup, upsert]
  | cons kv rest ih =>
    by_cases h : kv.1 = k
    · simp [alookup, upsert, h]
    · simp [alookup, upsert, h, ih]

theorem alookup_upsert_of_ne (k k' : String) (dflt : α) (f : α → α) (hne : k' ≠ k) :
    ∀ l : List (String × α), alookup k' (upsert k dflt f l) = alookup k' l := by
  intro l
  have hkk : ¬ k = k' := fun hh => hne hh.symm
  induction l with
  | nil => simp [alookup, upsert, hkk]
  | cons kv rest ih =>
    by_cases h : kv.1 = k
    · simp [alookup, upsert, h, hkk]
    · by_cases h2 : kv.1 = k'
      · simp [alookup, upsert, h, h2, hne]
      · simp [alookup, upsert, h, h2, ih]

theorem sumVals_upsert (h : α → Nat) (k : String) (dflt : α) (f : α → α) (c : Nat)
    (hf : ∀ v, h (f v) = h v + c) (hd : h dflt = 0) :
    ∀ l : List (String × α), sumVals h (upsert k dflt f l) = sumVals h l + c := by
  intro l
  induction l with
  | nil => simp [upsert, sumVals, hf, hd]
  | cons kv rest ih =>
    by_cases hk : kv.1 = k
    · simp [upsert, sumVals, hk, hf]
      omega
    · simp [upsert, sumVals, hk, ih]
      omega

theorem occ_append_single (x y : PodInfo) (l : List PodInfo) :
    occ x (l ++ [y]) = occ x l + (if y = x then 1 else 0) := by
  induction l with
  | nil => simp [occ]
  | cons z r ih => simp [occ, ih]; omega

/-! ## The pod_info construction (claim C7 machinery) -/

/-- The containers entry contributed by one liveInstances element. -/
def instContainer (inst : LiveInstance) : ContainerInfo :=
  { name := inst.containerName, id := inst.instanceId.id,
    runtime := inst.instanceId.containerRuntime }

theorem getLast?_cons_isSome (a : α) (l : List α) : ∃ y, (a :: l).getLast? = some y := by
  induction l generalizing a with
  | nil => exact ⟨a, rfl⟩
  | cons b t ih => rw [List.getLast?_cons_cons]; exact ih b

theorem foldl_podInfoStep_spec :
    ∀ (l : List LiveInstance) (acc : PodInfo),
      l.foldl podInfoStep acc =
        { id := acc.id, name := acc.name,
          node := (match l.getLast? with
                   | some inst => some inst.instanceId.node
                   | none => acc.node),
          containers := acc.containers ++ l.map instContainer } := by
  intro l
  induction l with
  | nil => intro acc; simp
  | cons i t ih =>
    intro acc
    rw [List.foldl_cons, ih]
    cases t with
    | nil => simp [podInfoStep, instContainer]
    | cons x t' =>
      obtain ⟨y, hy⟩ := getLast?_cons_isSome x t'
      simp [podInfoStep, instContainer, hy]

/-- C7: for every pod record, the derived pod entry keeps the pod id and
name, its containers list has one entry per liveInstances element in source
order, its node is the node of the last liveInstances element processed,
and an empty liveInstances list gives node = null and containers = []. -/
theorem pod_entry_containers_and_node (p : PodRec) :
    (mkPodInfo p).id = p.id ∧ (mkPodInfo p).name = p.name ∧
    (mkPodInfo p).containers = p.liveInstances.map instContainer ∧
    (mkPodInfo p).node = (match p.liveInstances.getLast? with
                          | some inst => some inst.instanceId.node
                          | none => none) ∧
    (p.liveInstances = [] → (mkPodInfo p).node = none ∧ (mkPodInfo p).containers = []) := by
  refine ⟨?_, ?_, ?_, ?_, ?_⟩
  · simp [mkPodInfo, foldl_podInfoStep_spec]
  · simp [mkPodInfo, foldl_podInfoStep_spec]
  · simp [mkPodInfo, foldl_podInfoStep_spec]
  · simp [mkPodInfo, foldl_podInfoStep_spec]
  · intro h
    simp [mkPodInfo, foldl_podInfoStep_spec, h]

/-- A concrete pod record with no live instances. -/
def samplePodNoInstances : PodRec :=
  { clusterId := "c", ns := "n", deploymentId := none,
    id := "p1", name := "pod-one", liveInstances := [] }

theorem pod_entry_containers_and_node_witness :
    (mkPodInfo samplePodNoInstances).node = none ∧
    (mkPodInfo samplePodNoInstances).containers = [] :=
  (pod_entry_containers_and_node samplePodNoInstances).2.2.2.2 rfl

/-! ## Aggregate lemmas for the pod-count and occurrence invariants (C2) -/

/-- A namespace-level measure summed over the whole tree. -/
def treeAgg (g : NsEntry → Nat) (md : MasterData) : Nat :=
  sumVals (fun ce => sumVals g ce.namespaces) md

/-- A cluster-level upsert whose update does not touch the namespaces map
(phases 1 and 2) preserves every tree aggregate. -/
theorem treeAgg_upsert_namespaces_eq (g : NsEntry → Nat) (cid : String)
    (F : ClusterEntry → ClusterEntry) (hF : ∀ ce, (F ce).namespaces = ce.namespaces)
    (md : MasterData) :
    treeAgg g (upsert cid emptyClusterEntry F md) = treeAgg g md := by
  have h := sumVals_upsert (fun ce => sumVals g ce.namespaces) cid emptyClusterEntry F 0
    (fun ce => by simp [hF ce]) (by simp [emptyClusterEntry, sumVals]) md
  simpa [treeAgg] using h

/-- A cluster-level upsert whose update upserts one namespace entry
(phases 3, 4, 5) changes a tree aggregate by the namespace-level delta. -/
theorem treeAgg_upsert_ns (g : NsEntry → Nat) (hg0 : g emptyNsEntry = 0)
    (cid nname : String) (G : NsEntry → NsEntry) (c : Nat)
    (hG : ∀ ne, g (G ne) = g ne + c) (md : MasterData) :
    treeAgg g (upsert cid emptyClusterEntry
        (fun ce => { ce with namespaces := upsert nname emptyNsEntry G ce.namespaces }) md)
      = treeAgg g md + c := by
  have h := sumVals_upsert (fun ce => sumVals g ce.namespaces) cid emptyClusterEntry
    (fun ce => { ce with namespaces := upsert nname emptyNsEntry G ce.namespaces }) c
    (fun ce => by simpa using sumVals_upsert g nname emptyNsEntry G c hG hg0 ce.namespaces)
    (by simp [emptyClusterEntry, sumVals]) md
  simpa [treeAgg] using h

/-- Generic preservation of a tree measure along a foldl of a phase body. -/
theorem foldl_preserve {ι : Type} (A : MasterData → Nat) (step : MasterData → ι → MasterData)
    (hstep : ∀ md i, A (step md i) = A md) :
    ∀ (l : List ι) (md : MasterData), A (l.foldl step md) = A md := by
  intro l
  induction l with
  | nil => intro md; rfl
  | cons i r ih => intro md; rw [List.foldl_cons, ih, hstep]

/-- Per-item sum over the input pod collection. -/
def podsSum (δ : PodRec → Nat) : List PodRec → Nat
  | [] => 0
  | p :: r => δ p + podsSum δ r

/-- Generic additive effect of the pod phase on a tree measure. -/
theorem processPods_agg (A : MasterData → Nat) (δ : PodRec → Nat)
    (hstep : ∀ md p, A (processPod md p) = A md + δ p) :
    ∀ (ps : List PodRec) (md : MasterData), A (processPods md ps) = A md + podsSum δ ps := by
  intro ps
  induction ps with
  | nil => intro md; simp [processPods, podsSum]
  | cons p r ih =>
    intro md
    have h2 := ih (processPod md p)
    simp only [processPods, List.foldl_cons] at h2 ⊢
    rw [h2, hstep, podsSum]
    omega

theorem podsSum_one (ps : List PodRec) : podsSum (fun _ => 1) ps = ps.length := by
  induction ps with
  | nil => rfl
  | cons p r ih => simp [podsSum, ih]; omega

theorem podsSum_countPodsP (f : PodRec → Bool) (ps : List PodRec) :
    podsSum (fun p => if f p then 1 else 0) ps = countPodsP f ps := by
  induction ps with
  | nil => rfl
  | cons p r ih => simp [podsSum, countPodsP, ih]

/-- Namespace-level measure: occurrences of a pod entry in deployment lists. -/
def gOccDep (x : PodInfo) (ne : NsEntry) : Nat :=
  sumVals (fun de => occ x de.pods) ne.deployments

/-- Namespace-level measure: occurrences of a pod entry in the standalone list. -/
def gOccSt (x : PodInfo) (ne : NsEntry) : Nat :=
  occ x ne.standalone_pods

theorem occDep_eq_treeAgg (x : PodInfo) (md : MasterData) :
    occDep x md = treeAgg (gOccDep x) md := rfl

theorem occStandalone_eq_treeAgg (x : PodInfo) (md : MasterData) :
    occStandalone x md = treeAgg (gOccSt x) md := rfl

theorem sumLen_upsert_info (did nm cr : String) (l : List (String × DepEntry)) :
    sumVals (fun de => de.pods.length)
      (upsert did emptyDepEntry (fun de => { de with info := some (nm, cr) }) l)
      = sumVals (fun de => de.pods.length) l := by
  have h := sumVals_upsert (fun de => de.pods.length) did emptyDepEntry
    (fun de => { de with info := some (nm, cr) }) 0 (fun de => by simp)
    (by simp [emptyDepEntry]) l
  omega

theorem sumLen_upsert_append (did : String) (y : PodInfo) (l : List (String × DepEntry)) :
    sumVals (fun de => de.pods.length)
      (upsert did emptyDepEntry (fun de => { de with pods := de.pods ++ [y] }) l)
      = sumVals (fun de => de.pods.length) l + 1 :=
  sumVals_upsert (fun de => de.pods.length) did emptyDepEntry
    (fun de => { de with pods := de.pods ++ [y] }) 1 (fun de => by simp)
    (by simp [emptyDepEntry]) l

theorem sumOcc_upsert_info (x : PodInfo) (did nm cr : String) (l : List (String × DepEntry)) :
    sumVals (fun de => occ x de.pods)
      (upsert did emptyDepEntry (fun de => { de with info := some (nm, cr) }) l)
      = sumVals (fun de => occ x de.pods) l := by
  have h := sumVals_upsert (fun de => occ x de.pods) did emptyDepEntry
    (fun de => { de with info := some (nm, cr) }) 0 (fun de => by simp)
    (by simp [emptyDepEntry, occ]) l
  omega

theorem sumOcc_upsert_append (x y : PodInfo) (did : String) (l : List (String × DepEntry)) :
    sumVals (fun de => occ x de.pods)
      (upsert did emptyDepEntry (fun de => { de with pods := de.pods ++ [y] }) l)
      = sumVals (fun de => occ x de.pods) l + (if y = x then 1 else 0) :=
  sumVals_upsert (fun de => occ x de.pods) did emptyDepEntry
    (fun de => { de with pods := de.pods ++ [y] }) (if y = x then 1 else 0)
    (fun de => by simp [occ_append_single]) (by simp [emptyDepEntry, occ]) l

theorem totalPods_processCluster (md : MasterData) (c : ClusterRec) :
    totalPods (processCluster md c) = totalPods md :=
  treeAgg_upsert_namespaces_eq nsPodCount c.id
    (fun ce => { ce with info := some c }) (fun _ => rfl) md

theorem totalPods_processNode (md : MasterData) (cid : String) (n : NodeRec) :
    totalPods (processNode md cid n) = totalPods md :=
  treeAgg_upsert_namespaces_eq nsPodCount cid
    (fun ce => { ce with nodes := ce.nodes ++ [n] }) (fun _ => rfl) md

theorem totalPods_processNamespace (md : MasterData) (r : NamespaceRec) :
    totalPods (processNamespace md r) = totalPods md := by
  have h : totalPods (processNamespace md r) = totalPods md + 0 :=
    treeAgg_upsert_ns nsPodCount (by simp [nsPodCount, emptyNsEntry, sumVals])
      r.metadata.clusterId r.metadata.name (fun ne => { ne with meta := some r.metadata }) 0
      (fun ne => by simp [nsPodCount]) md
  omega

theorem totalPods_processDeployment (md : MasterData) (d : DeploymentRec) :
    totalPods (processDeployment md d) = totalPods md := by
  have h : totalPods (processDeployment md d) = totalPods md + 0 :=
    treeAgg_upsert_ns nsPodCount (by simp [nsPodCount, emptyNsEntry, sumVals])
      d.clusterId d.ns
      (fun ne => { ne with deployments := upsert d.id emptyDepEntry (fun de => { de with info := some (d.name, d.created) }) ne.deployments }) 0
      (fun ne => by simp [nsPodCount, sumLen_upsert_info]) md
  omega

theorem totalPods_processPod (md : MasterData) (p : PodRec) :
    totalPods (processPod md p) = totalPods md + 1 := by
  by_cases h : truthyStr p.deploymentId = true
  · unfold processPod
    rw [if_pos h]
    exact treeAgg_upsert_ns nsPodCount (by simp [nsPodCount, emptyNsEntry, sumVals])
      p.clusterId p.ns
      (fun ne => { ne with deployments := upsert (p.deploymentId.getD "") emptyDepEntry (fun de => { de with pods := de.pods ++ [mkPodInfo p] }) ne.deployments })
      1 (fun ne => by simp [nsPodCount, sumLen_upsert_append]; omega) md
  · unfold processPod
    rw [if_neg h]
    exact treeAgg_upsert_ns nsPodCount (by simp [nsPodCount, emptyNsEntry, sumVals])
      p.clusterId p.ns
      (fun ne => { ne with standalone_pods := ne.standalone_pods ++ [mkPodInfo p] })
      1 (fun ne => by simp [nsPodCount]; omega) md

theorem occDep_processCluster (x : PodInfo) (md : MasterData) (c : ClusterRec) :
    occDep x (processCluster md c) = occDep x md := by
  rw [occDep_eq_treeAgg, occDep_eq_treeAgg]
  exact treeAgg_upsert_namespaces_eq (gOccDep x) c.id
    (fun ce => { ce with info := some c }) (fun _ => rfl) md

theorem occDep_processNode (x : PodInfo) (md : MasterData) (cid : String) (n : NodeRec) :
    occDep x (processNode md cid n) = occDep x md := by
  rw [occDep_eq_treeAgg, occDep_eq_treeAgg]
  exact treeAgg_upsert_namespaces_eq (gOccDep x) cid
    (fun ce => { ce with nodes := ce.nodes ++ [n] }) (fun _ => rfl) md

theorem occDep_processNamespace (x : PodInfo) (md : MasterData) (r : NamespaceRec) :
    occDep x (processNamespace md r) = occDep x md := by
  have h : occDep x (processNamespace md r) = occDep x md + 0 :=
    treeAgg_upsert_ns (gOccDep x) (by simp [gOccDep, emptyNsEntry, sumVals])
      r.metadata.clusterId r.metadata.name
      (fun ne => { ne with meta := some r.metadata }) 0 (fun ne => by simp [gOccDep]) md
  omega

theorem occDep_processDeployment (x : PodInfo) (md : MasterData) (d : DeploymentRec) :
    occDep x (processDeployment md d) = occDep x md := by
  have h : occDep x (processDeployment md d) = occDep x md + 0 :=
    treeAgg_upsert_ns (gOccDep x) (by simp [gOccDep, emptyNsEntry, sumVals])
      d.clusterId d.ns
      (fun ne => { ne with deployments := upsert d.id emptyDepEntry (fun de => { de with info := some (d.name, d.created) }) ne.deployments }) 0
      (fun ne => by simp [gOccDep, sumOcc_upsert_info]) md
  omega

theorem occDep_processPod (x : PodInfo) (md : MasterData) (p : PodRec) :
    occDep x (processPod md p)
      = occDep x md
        + (if truthyStr p.deploymentId && decide (mkPodInfo p = x) then 1 else 0) := by
  by_cases h : truthyStr p.deploymentId = true
  · have h2 : occDep x (processPod md p) = occDep x md + (if mkPodInfo p = x then 1 else 0) := by
      unfold processPod
      rw [if_pos h]
      exact treeAgg_upsert_ns (gOccDep x) (by simp [gOccDep, emptyNsEntry, sumVals])
        p.clusterId p.ns
        (fun ne => { ne with deployments := upsert (p.deploymentId.getD "") emptyDepEntry (fun de => { de with pods := de.pods ++ [mkPodInfo p] }) ne.deployments })
        (if mkPodInfo p = x then 1 else 0)
        (fun ne => by simp [gOccDep, sumOcc_upsert_append]) md
    rw [h2, h]
    simp
  · have hf : truthyStr p.deploymentId = false := by
      cases hb : truthyStr p.deploymentId
      · rfl
      · exact absurd hb h
    have h2 : occDep x (processPod md p) = occDep x md + 0 := by
      unfold processPod
      rw [if_neg h]
      exact treeAgg_upsert_ns (gOccDep x) (by simp [gOccDep, emptyNsEntry, sumVals])
        p.clusterId p.ns
        (fun ne => { ne with standalone_pods := ne.standalone_pods ++ [mkPodInfo p] })
        0 (fun ne => by simp [gOccDep]) md
    rw [h2, hf]
    simp

theorem occStandalone_processCluster (x : PodInfo) (md : MasterData) (c : ClusterRec) :
    occStandalone x (processCluster md c) = occStandalone x md := by
  rw [occStandalone_eq_treeAgg, occStandalone_eq_treeAgg]
  exact treeAgg_upsert_namespaces_eq (gOccSt x) c.id
    (fun ce => { ce with info := some c }) (fun _ => rfl) md

theorem occStandalone_processNode (x : PodInfo) (md : MasterData) (cid : String) (n : NodeRec) :
    occStandalone x (processNode md cid n) = occStandalone x md := by
  rw [occStandalone_eq_treeAgg, occStandalone_eq_treeAgg]
  exact treeAgg_upsert_namespaces_eq (gOccSt x) cid
    (fun ce => { ce with nodes := ce.nodes ++ [n] }) (fun _ => rfl) md

theorem occStandalone_processNamespace (x : PodInfo) (md : MasterData) (r : NamespaceRec) :
    occStandalone x (processNamespace md r) = occStandalone x md := by
  have h : occStandalone x (processNamespace md r) = occStandalone x md + 0 :=
    treeAgg_upsert_ns (gOccSt x) (by simp [gOccSt, emptyNsEntry, occ])
      r.metadata.clusterId r.metadata.name
      (fun ne => { ne with meta := some r.metadata }) 0 (fun ne => by simp [gOccSt]) md
  omega

theorem occStandalone_processDeployment (x : PodInfo) (md : MasterData) (d : DeploymentRec) :
    occStandalone x (processDeployment md d) = occStandalone x md := by
  have h : occStandalone x (processDeployment md d) = occStandalone x md + 0 :=
    treeAgg_upsert_ns (gOccSt x) (by simp [gOccSt, emptyNsEntry, occ])
      d.clusterId d.ns
      (fun ne => { ne with deployments := upsert d.id emptyDepEntry (fun de => { de with info := some (d.name, d.created) }) ne.deployments }) 0
      (fun ne => by simp [gOccSt]) md
  omega

theorem occStandalone_processPod (x : PodInfo) (md : MasterData) (p : PodRec) :
    occStandalone x (processPod md p)
      = occStandalone x md
        + (if !truthyStr p.deploymentId && decide (mkPodInfo p = x) then 1 else 0) := by
  by_cases h : truthyStr p.deploymentId = true
  · have h2 : occStandalone x (processPod md p) = occStandalone x md + 0 := by
      unfold processPod
      rw [if_pos h]
      exact treeAgg_upsert_ns (gOccSt x) (by simp [gOccSt, emptyNsEntry, occ])
        p.clusterId p.ns
        (fun ne => { ne with deployments := upsert (p.deploymentId.getD "") emptyDepEntry (fun de => { de with pods := de.pods ++ [mkPodInfo p] }) ne.deployments })
        0 (fun ne => by simp [gOccSt]) md
    rw [h2, h]
    simp
  · have hf : truthyStr p.deploymentId = false := by
      cases hb : truthyStr p.deploymentId
      · rfl
      · exact absurd hb h
    have h2 : occStandalone x (processPod md p)
        = occStandalone x md + (if mkPodInfo p = x then 1 else 0) := by
      unfold processPod
      rw [if_neg h]
      exact treeAgg_upsert_ns (gOccSt x) (by simp [gOccSt, emptyNsEntry, occ])
        p.clusterId p.ns
        (fun ne => { ne with standalone_pods := ne.standalone_pods ++ [mkPodInfo p] })
        (if mkPodInfo p = x then 1 else 0)
        (fun ne => by simp [gOccSt, occ_append_single]) md
    rw [h2, hf]
    simp

/-- The first four merge phases, folded: any measure preserved by each
phase body is preserved by the whole prefix of combine_kubernetes_data. -/
theorem agg_phases_preserve (A : MasterData → Nat)
    (h1 : ∀ md c, A (processCluster md c) = A md)
    (h2 : ∀ md cid n, A (processNode md cid n) = A md)
    (h3 : ∀ md r, A (processNamespace md r) = A md)
    (h4 : ∀ md d, A (processDeployment md d) = A md)
    (cs : List ClusterRec) (nodesData : List (String × List NodeRec))
    (nss : List NamespaceRec) (ds : List DeploymentRec) :
    A (processDeployments (processNamespaces
        (processNodes (processClusters [] cs) nodesData) nss) ds) = A [] := by
  simp only [processDeployments, processNamespaces, processNodes, processClusters]
  have hnodes : ∀ (nd : List (String × List NodeRec)) (md : MasterData),
      A (List.foldl (fun m kv => List.foldl (fun m2 n => processNode m2 kv.1 n) m kv.2) md nd)
        = A md :=
    fun nd md => foldl_preserve A (fun m kv => List.foldl (fun m2 n => processNode m2 kv.1 n) m kv.2)
      (fun md2 kv => foldl_preserve A (fun m2 n => processNode m2 kv.1 n)
        (fun m2 n => h2 m2 kv.1 n) kv.2 md2) nd md
  rw [foldl_preserve A processDeployment h4,
      foldl_preserve A processNamespace h3,
      hnodes,
      foldl_preserve A processCluster h1]

/-- C2: each input pod record lands in the merged tree exactly once — the
total pod count of the tree equals the input pod count, and for every pod
entry value the number of its occurrences across all deployment pod lists
equals the number of input pods with a truthy deploymentId deriving it,
while its occurrences across all standalone lists equal the number of
input pods with a falsy deploymentId deriving it (so no pod is dropped,
duplicated, or placed both under a deployment and as standalone). -/
theorem merged_pod_accounting (cs : List ClusterRec)
    (nodesData : List (String × List NodeRec)) (nss : List NamespaceRec)
    (ds : List DeploymentRec) (ps : List PodRec) (x : PodInfo) :
    totalPods (combine_kubernetes_data cs nodesData nss ds ps) = ps.length ∧
    occDep x (combine_kubernetes_data cs nodesData nss ds ps)
      = countPodsP (fun p => truthyStr p.deploymentId && decide (mkPodInfo p = x)) ps ∧
    occStandalone x (combine_kubernetes_data cs nodesData nss ds ps)
      = countPodsP (fun p => !truthyStr p.deploymentId && decide (mkPodInfo p = x)) ps := by
  have hb : totalPods (processDeployments (processNamespaces
      (processNodes (processClusters [] cs) nodesData) nss) ds) = 0 :=
    agg_phases_preserve totalPods totalPods_processCluster totalPods_processNode
      totalPods_processNamespace totalPods_processDeployment cs nodesData nss ds
  have hd : occDep x (processDeployments (processNamespaces
      (processNodes (processClusters [] cs) nodesData) nss) ds) = 0 :=
    agg_phases_preserve (occDep x) (occDep_processCluster x) (occDep_processNode x)
      (occDep_processNamespace x) (occDep_processDeployment x) cs nodesData nss ds
  have hs : occStandalone x (processDeployments (processNamespaces
      (processNodes (processClusters [] cs) nodesData) nss) ds) = 0 :=
    agg_phases_preserve (occStandalone x) (occStandalone_processCluster x)
      (occStandalone_processNode x) (occStandalone_processNamespace x)
      (occStandalone_processDeployment x) cs nodesData nss ds
  refine ⟨?_, ?_, ?_⟩
  · have h := processPods_agg totalPods (fun _ => 1)
      (fun md p => by rw [totalPods_processPod]) ps
      (processDeployments (processNamespaces
        (processNodes (processClusters [] cs) nodesData) nss) ds)
    rw [show totalPods (combine_kubernetes_data cs nodesData nss ds ps)
        = totalPods (processPods (processDeployments (processNamespaces
            (processNodes (processClusters [] cs) nodesData) nss) ds) ps) from rfl,
      h, hb, podsSum_one]
    omega
  · have h := processPods_agg (occDep x)
      (fun p => if truthyStr p.deploymentId && decide (mkPodInfo p = x) then 1 else 0)
      (fun md p => occDep_processPod x md p) ps
      (processDeployments (processNamespaces
        (processNodes (processClusters [] cs) nodesData) nss) ds)
    rw [show occDep x (combine_kubernetes_data cs nodesData nss ds ps)
        = occDep x (processPods (processDeployments (processNamespaces
            (processNodes (processClusters [] cs) nodesData) nss) ds) ps) from rfl,
      h, hd,
      podsSum_countPodsP (fun p => truthyStr p.deploymentId && decide (mkPodInfo p = x)) ps]
    omega
  · have h := processPods_agg (occStandalone x)
      (fun p => if !truthyStr p.deploymentId && decide (mkPodInfo p = x) then 1 else 0)
      (fun md p => occStandalone_processPod x md p) ps
      (processDeployments (processNamespaces
        (processNodes (processClusters [] cs) nodesData) nss) ds)
    rw [show occStandalone x (combine_kubernetes_data cs nodesData nss ds ps)
        = occStandalone x (processPods (processDeployments (processNamespaces
            (processNodes (processClusters [] cs) nodesData) nss) ds) ps) from rfl,
      h, hs,
      podsSum_countPodsP (fun p => !truthyStr p.deploymentId && decide (mkPodInfo p = x)) ps]
    omega

/-! ## Accessor lemmas: how each upsert shape changes tree lookups -/

theorem alookup_upsert_isSome (k k' : String) (dflt : α) (f : α → α)
    (l : List (String × α)) :
    (alookup k' (upsert k dflt f l)).isSome
      = ((alookup k' l).isSome || decide (k' = k)) := by
  by_cases h : k' = k
  · subst h
    rw [alookup_upsert_self]
    simp
  · rw [alookup_upsert_of_ne k k' dflt f h]
    simp [h]

theorem clusterEntryD_upsert (cid : String) (F : ClusterEntry → ClusterEntry)
    (md : MasterData) (c : String) :
    clusterEntryD (upsert cid emptyClusterEntry F md) c
      = if c = cid then F (clusterEntryD md cid) else clusterEntryD md c := by
  by_cases h : c = cid
  · subst h
    simp [clusterEntryD, alookup_upsert_self]
  · simp [clusterEntryD, alookup_upsert_of_ne cid c emptyClusterEntry F h, h]

theorem hasCluster_upsert (cid : String) (F : ClusterEntry → ClusterEntry)
    (md : MasterData) (c : String) :
    hasCluster (upsert cid emptyClusterEntry F md) c
      = (hasCluster md c || decide (c = cid)) := by
  simp [hasCluster, alookup_upsert_isSome]

theorem nsEntryD_upsert_ns (cid nn : String) (G : NsEntry → NsEntry)
    (md : MasterData) (c n : String) :
    nsEntryD (upsert cid emptyClusterEntry
        (fun ce => { ce with namespaces := upsert nn emptyNsEntry G ce.namespaces }) md) c n
      = if c = cid ∧ n = nn then G (nsEntryD md cid nn) else nsEntryD md c n := by
  unfold nsEntryD
  rw [clusterEntryD_upsert]
  by_cases hc : c = cid
  · subst hc
    simp only [if_pos rfl]
    by_cases hn : n = nn
    · subst hn
      simp [alookup_upsert_self]
    · simp [alookup_upsert_of_ne nn n emptyNsEntry G hn, hn]
  · simp [hc]

theorem nsEntryD_upsert_namespaces_eq (cid : String) (F : ClusterEntry → ClusterEntry)
    (hF : ∀ ce, (F ce).namespaces = ce.namespaces) (md : MasterData) (c n : String) :
    nsEntryD (upsert cid emptyClusterEntry F md) c n = nsEntryD md c n := by
  unfold nsEntryD
  rw [clusterEntryD_upsert]
  by_cases hc : c = cid
  · subst hc
    simp [hF]
  · simp [hc]

theorem hasNs_upsert_ns (cid nn : String) (G : NsEntry → NsEntry)
    (md : MasterData) (c n : String) :
    hasNs (upsert cid emptyClusterEntry
        (fun ce => { ce with namespaces := upsert nn emptyNsEntry G ce.namespaces }) md) c n
      = (hasNs md c n || (decide (c = cid) && decide (n = nn))) := by
  unfold hasNs
  rw [clusterEntryD_upsert]
  by_cases hc : c = cid
  · subst hc
    simp [alookup_upsert_isSome]
  · simp [hc]

theorem hasNs_upsert_namespaces_eq (cid : String) (F : ClusterEntry → ClusterEntry)
    (hF : ∀ ce, (F ce).namespaces = ce.namespaces) (md : MasterData) (c n : String) :
    hasNs (upsert cid emptyClusterEntry F md) c n = hasNs md c n := by
  unfold hasNs
  rw [clusterEntryD_upsert]
  by_cases hc : c = cid
  · subst hc
    simp [hF]
  · simp [hc]

theorem depEntryD_upsert_dep (cid nn did : String) (H : DepEntry → DepEntry)
    (md : MasterData) (c n i : String) :
    depEntryD (upsert cid emptyClusterEntry
        (fun ce => { ce with namespaces := upsert nn emptyNsEntry (fun ne =>
          { ne with deployments := upsert did emptyDepEntry H ne.deployments }) ce.namespaces }) md) c n i
      = if c = cid ∧ n = nn ∧ i = did then H (depEntryD md cid nn did)
        else depEntryD md c n i := by
  unfold depEntryD
  rw [nsEntryD_upsert_ns]
  by_cases hcn : c = cid ∧ n = nn
  · obtain ⟨hc, hn⟩ := hcn
    subst hc
    subst hn
    rw [if_pos (show c = c ∧ n = n from ⟨rfl, rfl⟩)]
    by_cases hi : i = did
    · subst hi
      simp [alookup_upsert_self]
    · simp [alookup_upsert_of_ne did i emptyDepEntry H hi, hi]
  · rw [if_neg hcn, if_neg (by tauto)]

theorem hasDep_upsert_dep (cid nn did : String) (H : DepEntry → DepEntry)
    (md : MasterData) (c n i : String) :
    hasDep (upsert cid emptyClusterEntry
        (fun ce => { ce with namespaces := upsert nn emptyNsEntry (fun ne =>
          { ne with deployments := upsert did emptyDepEntry H ne.deployments }) ce.namespaces }) md) c n i
      = (hasDep md c n i || (decide (c = cid) && decide (n = nn) && decide (i = did))) := by
  unfold hasDep
  rw [nsEntryD_upsert_ns]
  by_cases hcn : c = cid ∧ n = nn
  · obtain ⟨hc, hn⟩ := hcn
    subst hc
    subst hn
    simp [alookup_upsert_isSome]
  · rw [if_neg hcn]
    rcases not_and_or.mp hcn with hc | hn
    · simp [hc]
    · simp [hn]

theorem depEntryD_upsert_ns_deployments_eq (cid nn : String) (G : NsEntry → NsEntry)
    (hG : ∀ ne, (G ne).deployments = ne.deployments) (md : MasterData) (c n i : String) :
    depEntryD (upsert cid emptyClusterEntry
        (fun ce => { ce with namespaces := upsert nn emptyNsEntry G ce.namespaces }) md) c n i
      = depEntryD md c n i := by
  unfold depEntryD
  rw [nsEntryD_upsert_ns]
  by_cases hcn : c = cid ∧ n = nn
  · obtain ⟨hc, hn⟩ := hcn
    subst hc
    subst hn
    simp [hG]
  · rw [if_neg hcn]

theorem hasDep_upsert_ns_deployments_eq (cid nn : String) (G : NsEntry → NsEntry)
    (hG : ∀ ne, (G ne).deployments = ne.deployments) (md : MasterData) (c n i : String) :
    hasDep (upsert cid emptyClusterEntry
        (fun ce => { ce with namespaces := upsert nn emptyNsEntry G ce.namespaces }) md) c n i
      = hasDep md c n i := by
  unfold hasDep
  rw [nsEntryD_upsert_ns]
  by_cases hcn : c = cid ∧ n = nn
  · obtain ⟨hc, hn⟩ := hcn
    subst hc
    subst hn
    simp [hG]
  · rw [if_neg hcn]

theorem nsMeta_upsert_ns_meta_eq (cid nn : String) (G : NsEntry → NsEntry)
    (hG : ∀ ne, (G ne).meta = ne.meta) (md : MasterData) (c n : String) :
    (nsEntryD (upsert cid emptyClusterEntry
        (fun ce => { ce with namespaces := upsert nn emptyNsEntry G ce.namespaces }) md) c n).meta
      = (nsEntryD md c n).meta := by
  rw [nsEntryD_upsert_ns]
  by_cases hcn : c = cid ∧ n = nn
  · obtain ⟨hc, hn⟩ := hcn
    subst hc
    subst hn
    simp [hG]
  · rw [if_neg hcn]

theorem nsStandalone_upsert_ns_eq (cid nn : String) (G : NsEntry → NsEntry)
    (hG : ∀ ne, (G ne).standalone_pods = ne.standalone_pods) (md : MasterData) (c n : String) :
    (nsEntryD (upsert cid emptyClusterEntry
        (fun ce => { ce with namespaces := upsert nn emptyNsEntry G ce.namespaces }) md) c n).standalone_pods
      = (nsEntryD md c n).standalone_pods := by
  rw [nsEntryD_upsert_ns]
  by_cases hcn : c = cid ∧ n = nn
  · obtain ⟨hc, hn⟩ := hcn
    subst hc
    subst hn
    simp [hG]
  · rw [if_neg hcn]

theorem clusterInfo_upsert_info_eq (cid : String) (F : ClusterEntry → ClusterEntry)
    (hF : ∀ ce, (F ce).info = ce.info) (md : MasterData) (c : String) :
    (clusterEntryD (upsert cid emptyClusterEntry F md) c).info
      = (clusterEntryD md c).info := by
  rw [clusterEntryD_upsert]
  by_cases h : c = cid
  · subst h
    simp [hF]
  · rw [if_neg h]

theorem clusterNodes_upsert_nodes_eq (cid : String) (F : ClusterEntry → ClusterEntry)
    (hF : ∀ ce, (F ce).nodes = ce.nodes) (md : MasterData) (c : String) :
    (clusterEntryD (upsert cid emptyClusterEntry F md) c).nodes
      = (clusterEntryD md c).nodes := by
  rw [clusterEntryD_upsert]
  by_cases h : c = cid
  · subst h
    simp [hF]
  · rw [if_neg h]

/-! ## Per-phase lookup wrappers -/

theorem nsEntryD_processCluster (md : MasterData) (cl : ClusterRec) (c n : String) :
    nsEntryD (processCluster md cl) c n = nsEntryD md c n :=
  nsEntryD_upsert_namespaces_eq cl.id (fun ce => { ce with info := some cl })
    (fun _ => rfl) md c n

theorem nsEntryD_processNode (md : MasterData) (cid : String) (nd : NodeRec) (c n : String) :
    nsEntryD (processNode md cid nd) c n = nsEntryD md c n :=
  nsEntryD_upsert_namespaces_eq cid (fun ce => { ce with nodes := ce.nodes ++ [nd] })
    (fun _ => rfl) md c n

theorem nsEntryD_processNamespace (md : MasterData) (r : NamespaceRec) (c n : String) :
    nsEntryD (processNamespace md r) c n
      = if c = r.metadata.clusterId ∧ n = r.metadata.name then
          { nsEntryD md r.metadata.clusterId r.metadata.name with meta := some r.metadata }
        else nsEntryD md c n :=
  nsEntryD_upsert_ns r.metadata.clusterId r.metadata.name
    (fun ne => { ne with meta := some r.metadata }) md c n

theorem depEntryD_processNamespace (md : MasterData) (r : NamespaceRec) (c n i : String) :
    depEntryD (processNamespace md r) c n i = depEntryD md c n i :=
  depEntryD_upsert_ns_deployments_eq r.metadata.clusterId r.metadata.name
    (fun ne => { ne with meta := some r.metadata }) (fun _ => rfl) md c n i

theorem nsMeta_processNamespace_of_ne (md : MasterData) (r : NamespaceRec) (c n : String)
    (h : ¬(c = r.metadata.clusterId ∧ n = r.metadata.name)) :
    (nsEntryD (processNamespace md r) c n).meta = (nsEntryD md c n).meta := by
  rw [nsEntryD_processNamespace, if_neg h]

theorem depEntryD_processDeployment (md : MasterData) (d : DeploymentRec) (c n i : String) :
    depEntryD (processDeployment md d) c n i
      = if c = d.clusterId ∧ n = d.ns ∧ i = d.id then
          { depEntryD md d.clusterId d.ns d.id with info := some (d.name, d.created) }
        else depEntryD md c n i :=
  depEntryD_upsert_dep d.clusterId d.ns d.id
    (fun de => { de with info := some (d.name, d.created) }) md c n i

theorem hasDep_processDeployment (md : MasterData) (d : DeploymentRec) (c n i : String) :
    hasDep (processDeployment md d) c n i
      = (hasDep md c n i
          || (decide (c = d.clusterId) && decide (n = d.ns) && decide (i = d.id))) :=
  hasDep_upsert_dep d.clusterId d.ns d.id
    (fun de => { de with info := some (d.name, d.created) }) md c n i

theorem hasNs_processDeployment (md : MasterData) (d : DeploymentRec) (c n : String) :
    hasNs (processDeployment md d) c n
      = (hasNs md c n || (decide (c = d.clusterId) && decide (n = d.ns))) :=
  hasNs_upsert_ns d.clusterId d.ns
    (fun ne => { ne with deployments := upsert d.id emptyDepEntry (fun de => { de with info := some (d.name, d.created) }) ne.deployments }) md c n

theorem hasCluster_processDeployment (md : MasterData) (d : DeploymentRec) (c : String) :
    hasCluster (processDeployment md d) c
      = (hasCluster md c || decide (c = d.clusterId)) :=
  hasCluster_upsert d.clusterId
    (fun ce => { ce with namespaces := upsert d.ns emptyNsEntry (fun ne => { ne with deployments := upsert d.id emptyDepEntry (fun de => { de with info := some (d.name, d.created) }) ne.deployments }) ce.namespaces }) md c

theorem nsMeta_processDeployment (md : MasterData) (d : DeploymentRec) (c n : String) :
    (nsEntryD (processDeployment md d) c n).meta = (nsEntryD md c n).meta :=
  nsMeta_upsert_ns_meta_eq d.clusterId d.ns
    (fun ne => { ne with deployments := upsert d.id emptyDepEntry (fun de => { de with info := some (d.name, d.created) }) ne.deployments }) (fun _ => rfl) md c n

theorem nsStandalone_processDeployment (md : MasterData) (d : DeploymentRec) (c n : String) :
    (nsEntryD (processDeployment md d) c n).standalone_pods
      = (nsEntryD md c n).standalone_pods :=
  nsStandalone_upsert_ns_eq d.clusterId d.ns
    (fun ne => { ne with deployments := upsert d.id emptyDepEntry (fun de => { de with info := some (d.name, d.created) }) ne.deployments }) (fun _ => rfl) md c n

theorem clusterInfo_processDeployment (md : MasterData) (d : DeploymentRec) (c : String) :
    (clusterEntryD (processDeployment md d) c).info = (clusterEntryD md c).info :=
  clusterInfo_upsert_info_eq d.clusterId
    (fun ce => { ce with namespaces := upsert d.ns emptyNsEntry (fun ne => { ne with deployments := upsert d.id emptyDepEntry (fun de => { de with info := some (d.name, d.created) }) ne.deployments }) ce.namespaces }) (fun _ => rfl) md c

theorem clusterNodes_processDeployment (md : MasterData) (d : DeploymentRec) (c : String) :
    (clusterEntryD (processDeployment md d) c).nodes = (clusterEntryD md c).nodes :=
  clusterNodes_upsert_nodes_eq d.clusterId
    (fun ce => { ce with namespaces := upsert d.ns emptyNsEntry (fun ne => { ne with deployments := upsert d.id emptyDepEntry (fun de => { de with info := some (d.name, d.created) }) ne.deployments }) ce.namespaces }) (fun _ => rfl) md c

theorem nsMeta_processPod (md : MasterData) (p : PodRec) (c n : String) :
    (nsEntryD (processPod md p) c n).meta = (nsEntryD md c n).meta := by
  unfold processPod
  by_cases h : truthyStr p.deploymentId = true
  · rw [if_pos h]
    exact nsMeta_upsert_ns_meta_eq p.clusterId p.ns
      (fun ne => { ne with deployments := upsert (p.deploymentId.getD "") emptyDepEntry (fun de => { de with pods := de.pods ++ [mkPodInfo p] }) ne.deployments }) (fun _ => rfl) md c n
  · rw [if_neg h]
    exact nsMeta_upsert_ns_meta_eq p.clusterId p.ns
      (fun ne => { ne with standalone_pods := ne.standalone_pods ++ [mkPodInfo p] })
      (fun _ => rfl) md c n

theorem depEntryD_processPod_truthy (md : MasterData) (p : PodRec)
    (h : truthyStr p.deploymentId = true) (c n i : String) :
    depEntryD (processPod md p) c n i
      = if c = p.clusterId ∧ n = p.ns ∧ i = p.deploymentId.getD "" then
          { depEntryD md p.clusterId p.ns (p.deploymentId.getD "") with
            pods := (depEntryD md p.clusterId p.ns (p.deploymentId.getD "")).pods
              ++ [mkPodInfo p] }
        else depEntryD md c n i := by
  unfold processPod
  rw [if_pos h]
  exact depEntryD_upsert_dep p.clusterId p.ns (p.deploymentId.getD "")
    (fun de => { de with pods := de.pods ++ [mkPodInfo p] }) md c n i

theorem depEntryD_processPod_falsy (md : MasterData) (p : PodRec)
    (h : ¬truthyStr p.deploymentId = true) (c n i : String) :
    depEntryD (processPod md p) c n i = depEntryD md c n i := by
  unfold processPod
  rw [if_neg h]
  exact depEntryD_upsert_ns_deployments_eq p.clusterId p.ns
    (fun ne => { ne with standalone_pods := ne.standalone_pods ++ [mkPodInfo p] })
    (fun _ => rfl) md c n i

theorem depInfo_processPod (md : MasterData) (p : PodRec) (c n i : String) :
    (depEntryD (processPod md p) c n i).info = (depEntryD md c n i).info := by
  by_cases h : truthyStr p.deploymentId = true
  · rw [depEntryD_processPod_truthy md p h]
    by_cases hm : c = p.clusterId ∧ n = p.ns ∧ i = p.deploymentId.getD ""
    · obtain ⟨h1, h2, h3⟩ := hm
      subst h1
      subst h2
      subst h3
      rw [if_pos (show p.clusterId = p.clusterId ∧ p.ns = p.ns ∧
        p.deploymentId.getD "" = p.deploymentId.getD "" from ⟨rfl, rfl, rfl⟩)]
    · rw [if_neg hm]
  · rw [depEntryD_processPod_falsy md p h]

theorem depPods_mono_processPod (md : MasterData) (p : PodRec) (c n i : String)
    (x : PodInfo) (hx : x ∈ (depEntryD md c n i).pods) :
    x ∈ (depEntryD (processPod md p) c n i).pods := by
  by_cases h : truthyStr p.deploymentId = true
  · rw [depEntryD_processPod_truthy md p h]
    by_cases hm : c = p.clusterId ∧ n = p.ns ∧ i = p.deploymentId.getD ""
    · obtain ⟨h1, h2, h3⟩ := hm
      subst h1
      subst h2
      subst h3
      rw [if_pos (show p.clusterId = p.clusterId ∧ p.ns = p.ns ∧
        p.deploymentId.getD "" = p.deploymentId.getD "" from ⟨rfl, rfl, rfl⟩)]
      exact List.mem_append_left _ hx
    · rw [if_neg hm]
      exact hx
  · rw [depEntryD_processPod_falsy md p h]
    exact hx

theorem hasNs_processPod_formula (md : MasterData) (p : PodRec) (c n : String) :
    hasNs (processPod md p) c n
      = (hasNs md c n || (decide (c = p.clusterId) && decide (n = p.ns))) := by
  unfold processPod
  by_cases h : truthyStr p.deploymentId = true
  · rw [if_pos h]
    exact hasNs_upsert_ns p.clusterId p.ns
      (fun ne => { ne with deployments := upsert (p.deploymentId.getD "") emptyDepEntry (fun de => { de with pods := de.pods ++ [mkPodInfo p] }) ne.deployments }) md c n
  · rw [if_neg h]
    exact hasNs_upsert_ns p.clusterId p.ns
      (fun ne => { ne with standalone_pods := ne.standalone_pods ++ [mkPodInfo p] }) md c n

theorem hasDep_mono_processPod (md : MasterData) (p : PodRec) (c n i : String)
    (hx : hasDep md c n i = true) : hasDep (processPod md p) c n i = true := by
  by_cases h : truthyStr p.deploymentId = true
  · have h2 : hasDep (processPod md p) c n i
        = (hasDep md c n i || (decide (c = p.clusterId) && decide (n = p.ns)
            && decide (i = p.deploymentId.getD ""))) := by
      unfold processPod
      rw [if_pos h]
      exact hasDep_upsert_dep p.clusterId p.ns (p.deploymentId.getD "")
        (fun de => { de with pods := de.pods ++ [mkPodInfo p] }) md c n i
    rw [h2, hx]
    rfl
  · have h2 : hasDep (processPod md p) c n i = hasDep md c n i := by
      unfold processPod
      rw [if_neg h]
      exact hasDep_upsert_ns_deployments_eq p.clusterId p.ns
        (fun ne => { ne with standalone_pods := ne.standalone_pods ++ [mkPodInfo p] })
        (fun _ => rfl) md c n i
    rw [h2]
    exact hx

theorem hasDep_processPod_self (md : MasterData) (p : PodRec)
    (h : truthyStr p.deploymentId = true) :
    hasDep (processPod md p) p.clusterId p.ns (p.deploymentId.getD "") = true := by
  have h2 : hasDep (processPod md p) p.clusterId p.ns (p.deploymentId.getD "")
      = (hasDep md p.clusterId p.ns (p.deploymentId.getD "")
          || (decide (p.clusterId = p.clusterId) && decide (p.ns = p.ns)
              && decide (p.deploymentId.getD "" = p.deploymentId.getD ""))) := by
    unfold processPod
    rw [if_pos h]
    exact hasDep_upsert_dep p.clusterId p.ns (p.deploymentId.getD "")
      (fun de => { de with pods := de.pods ++ [mkPodInfo p] }) md p.clusterId p.ns
      (p.deploymentId.getD "")
  rw [h2]
  simp

/-! ## Folded phase lemmas and the placeholder / frame theorems -/

theorem foldl_pres {ι β : Type _} (A : MasterData → β) (step : MasterData → ι → MasterData)
    (hstep : ∀ md i, A (step md i) = A md) :
    ∀ (l : List ι) (md : MasterData), A (l.foldl step md) = A md := by
  intro l
  induction l with
  | nil => intro md; rfl
  | cons i r ih => intro md; rw [List.foldl_cons, ih, hstep]

theorem foldl_mono {ι : Type _} (P : MasterData → Prop) (step : MasterData → ι → MasterData)
    (hstep : ∀ md i, P md → P (step md i)) :
    ∀ (l : List ι) (md : MasterData), P md → P (l.foldl step md) := by
  intro l
  induction l with
  | nil => intro md h; exact h
  | cons i r ih =>
    intro md h
    rw [List.foldl_cons]
    exact ih _ (hstep md i h)

theorem nsEntryD_processClusters (cs : List ClusterRec) (md : MasterData) (c n : String) :
    nsEntryD (processClusters md cs) c n = nsEntryD md c n :=
  foldl_pres (fun m => nsEntryD m c n) processCluster
    (fun m cl => nsEntryD_processCluster m cl c n) cs md

theorem nsEntryD_processNodes (nd : List (String × List NodeRec)) (md : MasterData)
    (c n : String) :
    nsEntryD (processNodes md nd) c n = nsEntryD md c n := by
  unfold processNodes
  exact foldl_pres (fun m => nsEntryD m c n)
    (fun m kv => List.foldl (fun m2 x => processNode m2 kv.1 x) m kv.2)
    (fun m kv => foldl_pres (fun m2 => nsEntryD m2 c n) (fun m2 x => processNode m2 kv.1 x)
      (fun m2 x => nsEntryD_processNode m2 kv.1 x c n) kv.2 m) nd md

theorem depEntryD_processNamespaces (nss : List NamespaceRec) (md : MasterData)
    (c n i : String) :
    depEntryD (processNamespaces md nss) c n i = depEntryD md c n i :=
  foldl_pres (fun m => depEntryD m c n i) processNamespace
    (fun m r => depEntryD_processNamespace m r c n i) nss md

theorem depEntryD_processDeployments_of_ne :
    ∀ (ds : List DeploymentRec) (md : MasterData) (c n i : String),
      (∀ d ∈ ds, d.id ≠ i) →
      depEntryD (processDeployments md ds) c n i = depEntryD md c n i := by
  intro ds
  induction ds with
  | nil => intro md c n i _; rfl
  | cons d r ih =>
    intro md c n i h
    have hstep : depEntryD (processDeployment md d) c n i = depEntryD md c n i := by
      rw [depEntryD_processDeployment, if_neg]
      intro hm
      exact h d (List.mem_cons_self d r) hm.2.2.symm
    have hrest : depEntryD (processDeployments (processDeployment md d) r) c n i
        = depEntryD (processDeployment md d) c n i :=
      ih (processDeployment md d) c n i (fun d2 hd2 => h d2 (List.mem_cons_of_mem d hd2))
    exact hrest.trans hstep

theorem nsMeta_processDeployments (ds : List DeploymentRec) (md : MasterData) (c n : String) :
    (nsEntryD (processDeployments md ds) c n).meta = (nsEntryD md c n).meta :=
  foldl_pres (fun m => (nsEntryD m c n).meta) processDeployment
    (fun m d => nsMeta_processDeployment m d c n) ds md

theorem nsMeta_processPods (ps : List PodRec) (md : MasterData) (c n : String) :
    (nsEntryD (processPods md ps) c n).meta = (nsEntryD md c n).meta :=
  foldl_pres (fun m => (nsEntryD m c n).meta) processPod
    (fun m p => nsMeta_processPod m p c n) ps md

theorem nsMeta_processNamespaces_of_ne :
    ∀ (nss : List NamespaceRec) (md : MasterData) (c n : String),
      (∀ r ∈ nss, ¬(c = r.metadata.clusterId ∧ n = r.metadata.name)) →
      (nsEntryD (processNamespaces md nss) c n).meta = (nsEntryD md c n).meta := by
  intro nss
  induction nss with
  | nil => intro md c n _; rfl
  | cons r rs ih =>
    intro md c n h
    have hstep : (nsEntryD (processNamespace md r) c n).meta = (nsEntryD md c n).meta :=
      nsMeta_processNamespace_of_ne md r c n (h r (List.mem_cons_self r rs))
    have hrest : (nsEntryD (processNamespaces (processNamespace md r) rs) c n).meta
        = (nsEntryD (processNamespace md r) c n).meta :=
      ih (processNamespace md r) c n (fun r2 hr2 => h r2 (List.mem_cons_of_mem r hr2))
    exact hrest.trans hstep

theorem hasNs_mono_processDeployment (md : MasterData) (d : DeploymentRec) (c n : String)
    (h : hasNs md c n = true) : hasNs (processDeployment md d) c n = true := by
  rw [hasNs_processDeployment, h]
  rfl

theorem hasNs_processDeployments_of_mem :
    ∀ (ds : List DeploymentRec) (md : MasterData) (d : DeploymentRec),
      d ∈ ds → hasNs (processDeployments md ds) d.clusterId d.ns = true := by
  intro ds
  induction ds with
  | nil => intro md d h; cases h
  | cons q r ih =>
    intro md d h
    rcases List.mem_cons.mp h with rfl | hr
    · have hself : hasNs (processDeployment md d) d.clusterId d.ns = true := by
        rw [hasNs_processDeployment]
        simp
      exact foldl_mono (fun m => hasNs m d.clusterId d.ns = true) processDeployment
        (fun m q2 hm => hasNs_mono_processDeployment m q2 d.clusterId d.ns hm)
        r (processDeployment md d) hself
    · exact ih (processDeployment md q) d hr

theorem hasNs_mono_processPod (md : MasterData) (p : PodRec) (c n : String)
    (h : hasNs md c n = true) : hasNs (processPod md p) c n = true := by
  rw [hasNs_processPod_formula, h]
  rfl

theorem hasNs_mono_processPods (ps : List PodRec) (md : MasterData) (c n : String)
    (h : hasNs md c n = true) : hasNs (processPods md ps) c n = true :=
  foldl_mono (fun m => hasNs m c n = true) processPod
    (fun m p hm => hasNs_mono_processPod m p c n hm) ps md h

theorem hasDep_imp_hasNs (md : MasterData) (c n i : String)
    (h : hasDep md c n i = true) : hasNs md c n = true := by
  unfold hasDep at h
  unfold hasNs
  cases halo : alookup n (clusterEntryD md c).namespaces with
  | some ne => rfl
  | none =>
    exfalso
    have hne : nsEntryD md c n = emptyNsEntry := by
      unfold nsEntryD
      rw [halo]
      rfl
    rw [hne] at h
    simp [emptyNsEntry, alookup] at h

/-- The invariant that a deployment entry exists, has empty info and
contains a given pod entry, is preserved by every later pod step. -/
theorem orphan_invariant_processPod (md : MasterData) (q : PodRec) (c n i : String)
    (x : PodInfo)
    (h : (depEntryD md c n i).info = none ∧ x ∈ (depEntryD md c n i).pods ∧
         hasDep md c n i = true) :
    (depEntryD (processPod md q) c n i).info = none ∧
    x ∈ (depEntryD (processPod md q) c n i).pods ∧
    hasDep (processPod md q) c n i = true := by
  refine ⟨?_, ?_, ?_⟩
  · rw [depInfo_processPod]
    exact h.1
  · exact depPods_mono_processPod md q c n i x h.2.1
  · exact hasDep_mono_processPod md q c n i h.2.2

theorem processPods_orphan :
    ∀ (ps : List PodRec) (md : MasterData) (p : PodRec),
      p ∈ ps → truthyStr p.deploymentId = true →
      (depEntryD md p.clusterId p.ns (p.deploymentId.getD "")).info = none →
      ((depEntryD (processPods md ps) p.clusterId p.ns (p.deploymentId.getD "")).info = none ∧
       mkPodInfo p ∈ (depEntryD (processPods md ps) p.clusterId p.ns (p.deploymentId.getD "")).pods ∧
       hasDep (processPods md ps) p.clusterId p.ns (p.deploymentId.getD "") = true) := by
  intro ps
  induction ps with
  | nil => intro md p hmem; cases hmem
  | cons q r ih =>
    intro md p hmem ht hinfo
    have hfold : processPods md (q :: r) = processPods (processPod md q) r := rfl
    rcases List.mem_cons.mp hmem with rfl | hr
    · have hself := depEntryD_processPod_truthy md p ht p.clusterId p.ns (p.deploymentId.getD "")
      rw [if_pos (show p.clusterId = p.clusterId ∧ p.ns = p.ns ∧
          p.deploymentId.getD "" = p.deploymentId.getD "" from ⟨rfl, rfl, rfl⟩)] at hself
      have hP : (depEntryD (processPod md p) p.clusterId p.ns (p.deploymentId.getD "")).info = none ∧
          mkPodInfo p ∈ (depEntryD (processPod md p) p.clusterId p.ns (p.deploymentId.getD "")).pods ∧
          hasDep (processPod md p) p.clusterId p.ns (p.deploymentId.getD "") = true := by
        refine ⟨?_, ?_, ?_⟩
        · rw [hself]
          exact hinfo
        · rw [hself]
          exact List.mem_append_right _ (List.mem_singleton.mpr rfl)
        · exact hasDep_processPod_self md p ht
      rw [hfold]
      exact foldl_mono (fun m => (depEntryD m p.clusterId p.ns (p.deploymentId.getD "")).info = none ∧
          mkPodInfo p ∈ (depEntryD m p.clusterId p.ns (p.deploymentId.getD "")).pods ∧
          hasDep m p.clusterId p.ns (p.deploymentId.getD "") = true) processPod
        (fun m q2 hm => orphan_invariant_processPod m q2 p.clusterId p.ns
          (p.deploymentId.getD "") (mkPodInfo p) hm)
        r (processPod md p) hP
    · have hinfo2 : (depEntryD (processPod md q) p.clusterId p.ns (p.deploymentId.getD "")).info = none := by
        rw [depInfo_processPod]
        exact hinfo
      rw [hfold]
      exact ih (processPod md q) p hr ht hinfo2

/-- C1: a pod whose truthy deploymentId references a deployment id that
never occurs in the deployments collection is still placed in the merged
tree, under an automatically created deployment entry whose info is empty;
moreover the namespace entries referenced only by such a pod, or only by a
deployment record, materialize with empty metadata, keyed on first
reference. -/
theorem merge_materializes_placeholders
    (cs : List ClusterRec) (nodesData : List (String × List NodeRec))
    (nss : List NamespaceRec) (ds : List DeploymentRec) (ps : List PodRec)
    (p : PodRec) (hmem : p ∈ ps) (ht : truthyStr p.deploymentId = true)
    (hnodep : ∀ d ∈ ds, d.id ≠ p.deploymentId.getD "") :
    ((depEntryD (combine_kubernetes_data cs nodesData nss ds ps)
        p.clusterId p.ns (p.deploymentId.getD "")).info = none ∧
     mkPodInfo p ∈ (depEntryD (combine_kubernetes_data cs nodesData nss ds ps)
        p.clusterId p.ns (p.deploymentId.getD "")).pods ∧
     hasDep (combine_kubernetes_data cs nodesData nss ds ps)
        p.clusterId p.ns (p.deploymentId.getD "") = true) ∧
    ((∀ r ∈ nss, ¬(p.clusterId = r.metadata.clusterId ∧ p.ns = r.metadata.name)) →
      hasNs (combine_kubernetes_data cs nodesData nss ds ps) p.clusterId p.ns = true ∧
      (nsEntryD (combine_kubernetes_data cs nodesData nss ds ps) p.clusterId p.ns).meta
        = none) ∧
    (∀ d ∈ ds,
      (∀ r ∈ nss, ¬(d.clusterId = r.metadata.clusterId ∧ d.ns = r.metadata.name)) →
      hasNs (combine_kubernetes_data cs nodesData nss ds ps) d.clusterId d.ns = true ∧
      (nsEntryD (combine_kubernetes_data cs nodesData nss ds ps) d.clusterId d.ns).meta
        = none) := by
  have h2 : ∀ c n, nsEntryD (processNodes (processClusters [] cs) nodesData) c n
      = emptyNsEntry := by
    intro c n
    rw [nsEntryD_processNodes, nsEntryD_processClusters]
    rfl
  have e1 := depEntryD_processDeployments_of_ne ds
    (processNamespaces (processNodes (processClusters [] cs) nodesData) nss)
    p.clusterId p.ns (p.deploymentId.getD "") hnodep
  have e2 := depEntryD_processNamespaces nss
    (processNodes (processClusters [] cs) nodesData)
    p.clusterId p.ns (p.deploymentId.getD "")
  have e3 : depEntryD (processNodes (processClusters [] cs) nodesData)
      p.clusterId p.ns (p.deploymentId.getD "") = emptyDepEntry := by
    unfold depEntryD
    rw [h2]
    rfl
  have hinfo0 : (depEntryD (processDeployments (processNamespaces
      (processNodes (processClusters [] cs) nodesData) nss) ds)
      p.clusterId p.ns (p.deploymentId.getD "")).info = none := by
    rw [e1, e2, e3]
    rfl
  have hmain := processPods_orphan ps
    (processDeployments (processNamespaces
      (processNodes (processClusters [] cs) nodesData) nss) ds)
    p hmem ht hinfo0
  refine ⟨hmain, ?_, ?_⟩
  · intro hns
    refine ⟨hasDep_imp_hasNs _ p.clusterId p.ns (p.deploymentId.getD "") hmain.2.2, ?_⟩
    have m1 := nsMeta_processPods ps
      (processDeployments (processNamespaces
        (processNodes (processClusters [] cs) nodesData) nss) ds) p.clusterId p.ns
    have m2 := nsMeta_processDeployments ds
      (processNamespaces (processNodes (processClusters [] cs) nodesData) nss)
      p.clusterId p.ns
    have m3 := nsMeta_processNamespaces_of_ne nss
      (processNodes (processClusters [] cs) nodesData) p.clusterId p.ns hns
    have m4 : (nsEntryD (processNodes (processClusters [] cs) nodesData)
        p.clusterId p.ns).meta = none := by
      rw [h2]
      rfl
    exact m1.trans (m2.trans (m3.trans m4))
  · intro d hd hns2
    refine ⟨hasNs_mono_processPods ps _ d.clusterId d.ns
      (hasNs_processDeployments_of_mem ds _ d hd), ?_⟩
    have m1 := nsMeta_processPods ps
      (processDeployments (processNamespaces
        (processNodes (processClusters [] cs) nodesData) nss) ds) d.clusterId d.ns
    have m2 := nsMeta_processDeployments ds
      (processNamespaces (processNodes (processClusters [] cs) nodesData) nss)
      d.clusterId d.ns
    have m3 := nsMeta_processNamespaces_of_ne nss
      (processNodes (processClusters [] cs) nodesData) d.clusterId d.ns hns2
    have m4 : (nsEntryD (processNodes (processClusters [] cs) nodesData)
        d.clusterId d.ns).meta = none := by
      rw [h2]
      rfl
    exact m1.trans (m2.trans (m3.trans m4))

/-- A concrete pod referencing a deployment that never arrives. -/
def orphanPod : PodRec :=
  { clusterId := "c1", ns := "ns1", deploymentId := some "dep1",
    id := "pod1", name := "orphan", liveInstances := [] }

theorem merge_materializes_placeholders_witness :
    (depEntryD (combine_kubernetes_data [] [] [] [] [orphanPod]) "c1" "ns1" "dep1").info
      = none ∧
    mkPodInfo orphanPod
      ∈ (depEntryD (combine_kubernetes_data [] [] [] [] [orphanPod]) "c1" "ns1" "dep1").pods ∧
    (nsEntryD (combine_kubernetes_data [] [] [] [] [orphanPod]) "c1" "ns1").meta = none := by
  have h := merge_materializes_placeholders [] [] [] [] [orphanPod] orphanPod
    (List.mem_singleton.mpr rfl) (by decide) (by intro d hd; cases hd)
  exact ⟨h.1.1, h.1.2.1, (h.2.1 (by intro r hr; cases hr)).2⟩

/-- C10: processing one deployment record replaces exactly the info field
of its (cluster, namespace, deploymentId) entry, leaving that entry's pod
list and every other observable part of the tree unchanged; the only keys
it may add are its own cluster, namespace and deployment keys. -/
theorem deployment_record_frame (md : MasterData) (d : DeploymentRec) :
    depEntryD (processDeployment md d) d.clusterId d.ns d.id
      = { depEntryD md d.clusterId d.ns d.id with info := some (d.name, d.created) } ∧
    (depEntryD (processDeployment md d) d.clusterId d.ns d.id).pods
      = (depEntryD md d.clusterId d.ns d.id).pods ∧
    (∀ c n i, ¬(c = d.clusterId ∧ n = d.ns ∧ i = d.id) →
      depEntryD (processDeployment md d) c n i = depEntryD md c n i) ∧
    (∀ c n, (nsEntryD (processDeployment md d) c n).meta = (nsEntryD md c n).meta ∧
      (nsEntryD (processDeployment md d) c n).standalone_pods
        = (nsEntryD md c n).standalone_pods) ∧
    (∀ c, (clusterEntryD (processDeployment md d) c).info = (clusterEntryD md c).info ∧
      (clusterEntryD (processDeployment md d) c).nodes = (clusterEntryD md c).nodes) ∧
    (∀ c, hasCluster (processDeployment md d) c
      = (hasCluster md c || decide (c = d.clusterId))) ∧
    (∀ c n, hasNs (processDeployment md d) c n
      = (hasNs md c n || (decide (c = d.clusterId) && decide (n = d.ns)))) ∧
    (∀ c n i, hasDep (processDeployment md d) c n i
      = (hasDep md c n i
          || (decide (c = d.clusterId) && decide (n = d.ns) && decide (i = d.id)))) := by
  have hself := depEntryD_processDeployment md d d.clusterId d.ns d.id
  rw [if_pos (show d.clusterId = d.clusterId ∧ d.ns = d.ns ∧ d.id = d.id
    from ⟨rfl, rfl, rfl⟩)] at hself
  refine ⟨hself, ?_, ?_, ?_, ?_, ?_, ?_, ?_⟩
  · rw [hself]
  · intro c n i hm
    rw [depEntryD_processDeployment, if_neg hm]
  · intro c n
    exact ⟨nsMeta_processDeployment md d c n, nsStandalone_processDeployment md d c n⟩
  · intro c
    exact ⟨clusterInfo_processDeployment md d c, clusterNodes_processDeployment md d c⟩
  · intro c
    exact hasCluster_processDeployment md d c
  · intro c n
    exact hasNs_processDeployment md d c n
  · intro c n i
    exact hasDep_processDeployment md d c n i

/-- A concrete deployment record. -/
def sampleDeployment : DeploymentRec :=
  { clusterId := "c1", ns := "ns1", id := "dep1", name := "web", created := "t0" }

theorem deployment_record_frame_witness :
    depEntryD (processDeployment [] sampleDeployment) "c2" "ns1" "dep1"
      = depEntryD [] "c2" "ns1" "dep1" :=
  (deployment_record_frame [] sampleDeployment).2.2.1 "c2" "ns1" "dep1" (by decide)

/-! ## Transport and Paginator (stapiret.py) -/

/-- MAX_RETRIES, stapiret.py line 24. -/
def MAX_RETRIES : Nat := 3

/-- RETRY_DELAY, stapiret.py line 25. -/
def RETRY_DELAY : Nat := 1

/-- The retry loop of make_request (lines 35-53).  `outcomes i` is attempt
number i against the server: `some data` when the GET returns a 2xx JSON
body, `none` when it raises one of the four caught exception types
(connection error, non-2xx status, non-JSON body, timeout).  The second
argument is the loop counter, the third the remaining iterations of
`range MAX_RETRIES`.  Returns the result, the number of attempts actually
made, and the backoff sleeps performed (RETRY_DELAY * 2 ^ attempt before
each retry, none after the final failure). -/
def make_request_go (outcomes : Nat → Option α) (attempt : Nat) :
    Nat → Option α × Nat × List Nat
  | 0 => (none, 0, [])
  | fuel + 1 =>
    match outcomes attempt with
    | some data => (some data, 1, [])
    | none =>
      if fuel = 0 then (none, 1, [])
      else
        let r := make_request_go outcomes (attempt + 1) fuel
        (r.1, r.2.1 + 1, RETRY_DELAY * 2 ^ attempt :: r.2.2)

/-- make_request (lines 35-53): run the retry loop from attempt 0. -/
def make_request (outcomes : Nat → Option α) : Option α × Nat × List Nat :=
  make_request_go outcomes 0 MAX_RETRIES

/-- C4: a call failing twice then succeeding on the third attempt returns
the successful payload after exactly 3 attempts, having slept
RETRY_DELAY * 2 ^ 0 = 1 and RETRY_DELAY * 2 ^ 1 = 2 time units before the
retries; a call whose first three attempts fail returns a Failure (None)
after exactly 3 attempts, making no fourth attempt — the result does not
depend on what any later attempt would return — and never raises. -/
theorem retry_backoff_three_attempts :
    (∀ (α : Type) (v : α) (rest : Nat → Option α),
      make_request (fun i => if i < 2 then none else if i = 2 then some v else rest i)
        = (some v, 3, [1, 2])) ∧
    (∀ (α : Type) (rest : Nat → Option α),
      make_request (fun i => if i < 3 then none else rest i)
        = ((none : Option α), 3, [1, 2])) := by
  constructor
  · intro α v rest
    rfl
  · intro α rest
    rfl

/-- Pagination limit, stapiret.py line 58. -/
def PAGE_LIMIT : Nat := 1000

/-- get_paginated_data (lines 55-86) run against a scripted transport: the
k-th element of `pages` is the item list extracted from the k-th
make_request call (`none` models a falsy response: a failure after all
retries or an empty body); a request beyond the script also fails.
Returns the accumulated items together with the pagination offsets at
which requests were issued, in order. -/
def get_paginated_data (pages : List (Option (List α))) (offset : Nat) :
    List α × List Nat :=
  match pages with
  | [] => ([], [offset])
  | none :: _ => ([], [offset])
  | some items :: rest =>
    if items.length < PAGE_LIMIT then (items, [offset])
    else
      let r := get_paginated_data rest (offset + PAGE_LIMIT)
      (items ++ r.1, offset :: r.2)

/-- A page response that lets the pagination loop continue: a successful
page holding at least PAGE_LIMIT items. -/
def isFullPage (r : Option (List α)) : Bool :=
  match r with
  | some items => PAGE_LIMIT ≤ items.length
  | none => false

def pageItems : Option (List α) → List α
  | some items => items
  | none => []

/-- Specification of the Paginator in the words of the spec: requests go
out at offsets 0, limit, 2 * limit, ...; the loop stops at the first
failed or strictly short page; the result is the concatenation of the full
prefix plus the terminating short page (empty when the terminator is a
failure or the script is exhausted). -/
def paginatorSpec (pages : List (Option (List α))) : List α × List Nat :=
  ((((pages.takeWhile isFullPage).map pageItems).flatten)
      ++ pageItems (((pages.drop (pages.takeWhile isFullPage).length).head?).getD none),
   (List.range ((pages.takeWhile isFullPage).length + 1)).map (fun j => PAGE_LIMIT * j))

theorem get_paginated_data_eq_aux {α : Type} :
    ∀ (pages : List (Option (List α))) (o : Nat),
      get_paginated_data pages o
        = ((((pages.takeWhile isFullPage).map pageItems).flatten)
            ++ pageItems (((pages.drop (pages.takeWhile isFullPage).length).head?).getD none),
           (List.range ((pages.takeWhile isFullPage).length + 1)).map
             (fun j => o + PAGE_LIMIT * j)) := by
  intro pages
  induction pages with
  | nil =>
    intro o
    simp [get_paginated_data, List.takeWhile, pageItems, List.range_succ]
  | cons r rest ih =>
    intro o
    cases r with
    | none =>
      simp [get_paginated_data, List.takeWhile, isFullPage, pageItems, List.range_succ]
    | some items =>
      by_cases hlen : items.length < PAGE_LIMIT
      · have hfull : isFullPage (some items) = false := by
          simp [isFullPage]
          omega
        simp [get_paginated_data, hlen, List.takeWhile, hfull, pageItems, List.range_succ]
      · have hfull : isFullPage (some items) = true := by
          simp [isFullPage]
          omega
        have htw : (some items :: rest).takeWhile isFullPage
            = some items :: rest.takeWhile isFullPage := by
          simp [List.takeWhile, hfull]
        simp only [get_paginated_data, if_neg hlen, ih (o + PAGE_LIMIT), htw]
        simp [List.range_succ_eq_map, List.map_map, Function.comp, pageItems,
          List.append_assoc]
        intro a ha
        ring

set_option maxRecDepth 20000 in
/-- C3: the Paginator requests pages at offsets 0, limit, 2 * limit, ...
(limit 1000) and terminates exactly at the first page that fails or yields
strictly fewer items than the limit, returning the concatenation of all
items accumulated so far; in particular page sizes 1000, 1000, 437 give
exactly 2437 items over exactly 3 requests at offsets 0, 1000, 2000, and
an empty first page gives an empty result with exactly 1 request. -/
theorem paginator_offsets_and_termination :
    (∀ (α : Type) (pages : List (Option (List α))),
      get_paginated_data pages 0 = paginatorSpec pages) ∧
    ((get_paginated_data
        [some (List.replicate 1000 ()), some (List.replicate 1000 ()),
         some (List.replicate 437 ())] 0).1.length = 2437 ∧
     (get_paginated_data
        [some (List.replicate 1000 ()), some (List.replicate 1000 ()),
         some (List.replicate 437 ())] 0).2 = [0, 1000, 2000]) ∧
    get_paginated_data [some ([] : List Unit)] 0 = ([], [0]) := by
  refine ⟨?_, ⟨?_, ?_⟩, ?_⟩
  · intro α pages
    rw [get_paginated_data_eq_aux pages 0, paginatorSpec]
    simp
  · simp [get_paginated_data, PAGE_LIMIT, List.length_replicate]
  · simp [get_paginated_data, PAGE_LIMIT, List.length_replicate]
  · rfl

/-! ## Collector: get_namespaces, the node wave, and the entry point -/

/-- Result of running a piece of Python code: a returned value or an
uncaught exception escaping it. -/
inductive PyResult (α : Type) where
  | ok (val : α)
  | raised
deriving DecidableEq

/-- get_namespaces (lines 109-116) against a scripted transport: the head
of `server` is what its single make_request call yields (`some body` is a
successful body already holding the namespaces list, `none` a Failure
after all retries; a request beyond the script also fails).  On Failure
the function reaches `len` applied to None at line 115 and raises
TypeError — it never falls back to an empty collection.  The second
component counts transport calls issued: always exactly one, since this
endpoint is not driven through get_paginated_data. -/
def get_namespaces (server : List (Option (List NamespaceRec))) :
    PyResult (List NamespaceRec) × Nat :=
  (match server.head?.getD none with
   | some body => PyResult.ok body
   | none => PyResult.raised,
   1)

/-- C5 (bug evidence): when the single namespaces request fails, the code
raises TypeError out of get_namespaces instead of yielding an empty
collection; by contrast a paginated fetch whose first request fails does
yield an empty collection, and the Merger is crash-free on fully empty
collections. -/
theorem entity_fetch_failure_paths :
    (get_namespaces ([none] : List (Option (List NamespaceRec)))).1 = PyResult.raised ∧
    get_paginated_data ([none] : List (Option (List ClusterRec))) 0 = ([], [0]) ∧
    combine_kubernetes_data [] [] [] [] [] = [] := by
  exact ⟨rfl, rfl, rfl⟩

/-- A concrete namespaces record. -/
def sampleNsRec : NamespaceRec :=
  { metadata := { id := "id0", clusterId := "c1", name := "ns1",
                  labels := [], annotations := [] } }

/-- A transport script whose first page is exactly full (1000 items) and
whose second page is short. -/
def fullThenShortServer : List (Option (List NamespaceRec)) :=
  [some (List.replicate 1000 sampleNsRec), some [sampleNsRec]]

set_option maxRecDepth 20000 in
/-- C6 counterexample: the namespaces fetch is not the Paginator — on a
server whose first page is exactly full it issues 1 request where driving
the same server through get_paginated_data issues 2. -/
theorem namespaces_fetch_not_paginated :
    ¬((get_namespaces fullThenShortServer).2
        = (get_paginated_data fullThenShortServer 0).2.length) := by
  have h1 : (get_namespaces fullThenShortServer).2 = 1 := rfl
  have h2 : (get_paginated_data fullThenShortServer 0).2.length = 2 := by
    simp [fullThenShortServer, get_paginated_data, PAGE_LIMIT, List.length_replicate]
  rw [h1, h2]
  omega

set_option maxRecDepth 20000 in
/-- C6 amended: get_namespaces issues exactly one unpaginated transport
request whatever the server holds, returning that single response's
namespaces list; on the full-then-short server it returns only the first
1000 records, while the Paginator on the same server returns all 1001
over two requests at offsets 0 and 1000. -/
theorem namespaces_fetch_single_request :
    (∀ server : List (Option (List NamespaceRec)), (get_namespaces server).2 = 1) ∧
    (get_namespaces fullThenShortServer).1
      = PyResult.ok (List.replicate 1000 sampleNsRec) ∧
    (get_paginated_data fullThenShortServer 0).1.length = 1001 ∧
    (get_paginated_data fullThenShortServer 0).2 = [0, 1000] := by
  refine ⟨fun server => rfl, rfl, ?_, ?_⟩
  · simp [fullThenShortServer, get_paginated_data, PAGE_LIMIT, List.length_replicate]
  · simp [fullThenShortServer, get_paginated_data, PAGE_LIMIT, List.length_replicate]

/-- Request and response events of the node fetch wave, tagged by cluster. -/
inductive NodeFetchEv where
  | req (cid : String)
  | resp (cid : String)
deriving DecidableEq

/-- One get_nodes call (lines 118-122): a single unpaginated request,
awaited to completion before control returns. -/
def get_nodes_events (cid : String) : List NodeFetchEv :=
  [NodeFetchEv.req cid, NodeFetchEv.resp cid]

/-- The node wave of main (lines 167-171): each get_nodes call is awaited
inside the for loop before the next iteration starts, so the trace is the
per-cluster request/response pairs laid out one after another. -/
def fetch_nodes_wave : List String → List NodeFetchEv
  | [] => []
  | cid :: rest => get_nodes_events cid ++ fetch_nodes_wave rest

def maxInFlightGo : List NodeFetchEv → Nat → Nat → Nat
  | [], _, m => m
  | NodeFetchEv.req _ :: r, cur, m => maxInFlightGo r (cur + 1) (max m (cur + 1))
  | NodeFetchEv.resp _ :: r, cur, m => maxInFlightGo r (cur - 1) m

/-- Largest number of requests simultaneously in flight along a trace. -/
def maxInFlight (tr : List NodeFetchEv) : Nat :=
  maxInFlightGo tr 0 0

/-- C8 counterexample: with two clusters the node-wave trace never has two
requests in flight at once, so the per-cluster node fetches do not run
concurrently with each other. -/
theorem node_wave_not_concurrent :
    ¬(2 ≤ maxInFlight (fetch_nodes_wave ["c1", "c2"])) := by
  decide

theorem maxInFlightGo_wave_le :
    ∀ (ids : List String) (m : Nat),
      maxInFlightGo (fetch_nodes_wave ids) 0 m ≤ max m 1 := by
  intro ids
  induction ids with
  | nil =>
    intro m
    simp [fetch_nodes_wave, maxInFlightGo]
  | cons cid rest ih =>
    intro m
    have h := ih (max m 1)
    have h2 : max (max m 1) 1 = max m 1 := by
      rw [max_assoc, max_self]
    rw [h2] at h
    simpa [fetch_nodes_wave, get_nodes_events, maxInFlightGo] using h

/-- C8 amended: the per-cluster node fetches form a wave of strictly
sequential request/response pairs — each response precedes the next
request and at most one node request is ever in flight. -/
theorem node_wave_sequential :
    (∀ ids : List String, fetch_nodes_wave ids = (ids.map get_nodes_events).flatten) ∧
    (∀ ids : List String, maxInFlight (fetch_nodes_wave ids) ≤ 1) := by
  constructor
  · intro ids
    induction ids with
    | nil => rfl
    | cons c r ih => simp [fetch_nodes_wave, ih]
  · intro ids
    have h := maxInFlightGo_wave_le ids 0
    simpa [maxInFlight] using h

/-- The two mandatory configuration values (lines 18-19): None models an
unset environment variable. -/
structure EnvConfig where
  base_url : Option String
  api_token : Option String

/-- The `all ([BASE_URL, API_TOKEN])` test of line 147: an unset variable
(None) and an empty string are both falsy. -/
def configPresent (cfg : EnvConfig) : Bool :=
  truthyStr cfg.base_url && truthyStr cfg.api_token

/-- Observable steps of a run, as far as the startup guard is concerned. -/
inductive MainStep where
  | log_error_missing_env
  | network_activity
deriving DecidableEq

/-- The startup guard of main (lines 146-151) around the rest of the run:
when a mandatory value is missing it logs one error and returns normally;
otherwise it proceeds with the session body, whose outcome and observable
steps are `body`. -/
def main_model (cfg : EnvConfig) (body : PyResult Unit × List MainStep) :
    PyResult Unit × List MainStep :=
  if !configPresent cfg then (PyResult.ok (), [MainStep.log_error_missing_env])
  else body

/-- The process exit status of `asyncio.run (main ())` at lines 212-218:
zero when main returns normally, nonzero only when an exception escapes. -/
def process_exit_code : PyResult Unit → Nat
  | PyResult.ok _ => 0
  | PyResult.raised => 1

/-- C9 counterexample: with the base URL unset and a token present, the
program reports the error and returns before any network activity, yet
main returns normally and the process exit status is 0 — success —
contradicting the claim that the exit status is not success. -/
theorem missing_config_exits_zero :
    main_model { base_url := none, api_token := some "tok" }
        (PyResult.ok (), [MainStep.network_activity])
      = (PyResult.ok (), [MainStep.log_error_missing_env]) ∧
    process_exit_code (main_model { base_url := none, api_token := some "tok" }
        (PyResult.ok (), [MainStep.network_activity])).1 = 0 := by
  exact ⟨rfl, rfl⟩

/-- C9 amended: if either mandatory value is absent or empty, main logs
the error once and returns before the session body runs — no network
activity — and the process still exits with status 0 (success); when both
are present the run is exactly the session body, so the exit status is 0
whenever that body completes without raising. -/
theorem startup_config_guard (cfg : EnvConfig) (body : PyResult Unit × List MainStep) :
    (configPresent cfg = false →
      main_model cfg body = (PyResult.ok (), [MainStep.log_error_missing_env]) ∧
      MainStep.network_activity ∉ (main_model cfg body).2 ∧
      process_exit_code (main_model cfg body).1 = 0) ∧
    (configPresent cfg = true → main_model cfg body = body) := by
  constructor
  · intro h
    have hm : main_model cfg body = (PyResult.ok (), [MainStep.log_error_missing_env]) := by
      simp [main_model, h]
    refine ⟨hm, ?_, ?_⟩
    · rw [hm]
      simp
    · rw [hm]
      rfl
  · intro h
    simp [main_model, h]

theorem startup_config_guard_witness :
    main_model { base_url := some "", api_token := some "t2" }
        (PyResult.ok (), [MainStep.network_activity])
      = (PyResult.ok (), [MainStep.log_error_missing_env]) :=
  ((startup_config_guard { base_url := some "", api_token := some "t2" }
      (PyResult.ok (), [MainStep.network_activity])).1 (by decide)).1
